import Mathlib

/-!
Verification of the distributed library reservation system
(MichalRedm/distributed-library-system).

The repository ships the React frontend (under `frontend/`) together with the
backend's API documentation; the backend coordinator itself (the Cassandra
service) is not part of the source tree.  Frontend functions (`formatDate`,
the reservation-list sort) are embedded directly from their TypeScript
sources.  The reservation consistency core (checkout / return / extend /
bulk-cancel and the record-store CAS discipline) is modelled from the spec,
faithful to its §3 data model, §4 component design and §5 concurrency model;
each such definition carries a doc comment saying what is modelled.

Timestamps of the coordinator model are abstracted as naturals (the spec's
ISO-8601 strings, ordered chronologically); ids are the spec's opaque strings.
-/

namespace DistLib

/-- Reservation status, `"active" | "completed"`, as in
`src/frontend/src/types/reservation.ts` (`ReservationStatus`) and §3 of the
spec. -/
inductive ReservationStatus
  | active
  | completed
deriving DecidableEq, Repr

/-- Book status, `'available' | 'checked_out'`, as in
`src/frontend/src/types/book.ts` (`BookStatus`) and §3 of the spec. -/
inductive BookStatus
  | available
  | checked_out
deriving DecidableEq, Repr

namespace Frontend

/-- Embeds `formatDate` from `src/frontend/src/utils/dateUtils.ts`.  The JS
`Date` constructor and locale formatting are abstracted as parameters:
`parse s = none` models `isNaN(new Date(s).getTime())` and `fmt` models
`toLocaleDateString`.  A `null`/`undefined` argument is `none`; the falsy
check `!isoDateString` also catches the empty string. -/
def formatDate {D : Type} (parse : String → Option D) (fmt : D → String)
    (isoDateString : Option String) : String :=
  match isoDateString with
  | none => ""
  | some s =>
    if s = "" then ""
    else
      match parse s with
      | none => s
      | some d => fmt d

/-- Embeds the `Reservation` interface of
`src/frontend/src/types/reservation.ts`. -/
structure Reservation where
  reservation_id : String
  user_id : String
  book_id : String
  user_name : String
  book_title : String
  status : ReservationStatus
  reservation_date : String
  return_deadline : String
  created_at : String
  updated_at : String
deriving DecidableEq, Repr

/-- Lexicographic three-way comparison of character lists by code point. -/
def lexCmp : List Char → List Char → Int
  | [], [] => 0
  | [], _ :: _ => -1
  | _ :: _, [] => 1
  | a :: as, b :: bs =>
    if a.toNat < b.toNat then -1
    else if b.toNat < a.toNat then 1
    else lexCmp as bs

/-- Models `String.prototype.localeCompare` as used by `sortedReservations`
on ISO-8601 timestamp strings, where locale collation coincides with
lexicographic code-point order. -/
def localeCompare (a b : String) : Int := lexCmp a.data b.data

/-- Embeds the comparator of `sortedReservations` in
`src/frontend/src/components/User/User.tsx` (the identical comparator appears
in the `ReservationList` component): active reservations sort before others,
ties are broken by `reservation_date`. -/
def reservationCompare (a b : Reservation) : Int :=
  if a.status = .active ∧ b.status ≠ .active then -1
  else if a.status ≠ .active ∧ b.status = .active then 1
  else localeCompare a.reservation_date b.reservation_date

/-- Boolean `a` sorts-no-later-than `b` for the comparator above
(`Array.prototype.sort` places `a` before `b` when the comparator is
non-positive). -/
def resLE (a b : Reservation) : Bool := reservationCompare a b ≤ 0

/-- Embeds `reservations.slice().sort(comparator)` from
`src/frontend/src/components/User/User.tsx` and the `ReservationList`
component: a copy of the input is sorted by `reservationCompare`; the sort is
modelled by `List.mergeSort`. -/
def sortedReservations (reservations : List Reservation) : List Reservation :=
  reservations.mergeSort resLE

end Frontend

namespace Core

/-- Modelled from the spec: the `Book` record of §3, owned by the Book
Registry, with the version token of §4.1/§9 (every mutable record carries a
version presented back on compare-and-set).  `created_at` is omitted: it is
immutable and no claim mentions it. -/
structure Book where
  book_id : String
  title : String
  status : BookStatus
  version : Nat
deriving DecidableEq, Repr

/-- Modelled from the spec: the `Reservation` record of §3, owned by the
Reservation Ledger.  Timestamps are abstracted as naturals ordered
chronologically; `created_at`/`updated_at` are omitted as no claim depends on
them. -/
structure Reservation where
  reservation_id : String
  user_id : String
  book_id : String
  status : ReservationStatus
  reservation_date : Nat
  return_deadline : Nat
deriving DecidableEq, Repr

/-- Modelled from the spec: the quiescent contents of the Record Store of
§4.1 — the Book Registry rows and the Reservation Ledger rows. -/
structure LibState where
  books : List Book
  reservations : List Reservation
deriving DecidableEq, Repr

/-- Reads the book row with the given id (`get` of §4.1 on the Book
Registry). -/
def blookup (bid : String) (l : List Book) : Option Book :=
  l.find? (fun b => decide (b.book_id = bid))

/-- Rewrites the book row with the given id (the write half of a successful
compare-and-set of §4.1). -/
def bupdate (bid : String) (f : Book → Book) (l : List Book) : List Book :=
  l.map (fun b => if b.book_id = bid then f b else b)

/-- Reads the reservation row with the given id. -/
def rlookup (rid : String) (l : List Reservation) : Option Reservation :=
  l.find? (fun r => decide (r.reservation_id = rid))

/-- Rewrites the reservation row with the given id. -/
def rupdate (rid : String) (f : Reservation → Reservation)
    (l : List Reservation) : List Reservation :=
  l.map (fun r => if r.reservation_id = rid then f r else r)

/-- Deletes the reservation row with the given id. -/
def rremove (rid : String) (l : List Reservation) : List Reservation :=
  l.filter (fun r => decide (r.reservation_id ≠ rid))

/-- Successful `trySetCheckedOut` of §4.2: flip the status and advance the
version token. -/
def setCheckedOut (b : Book) : Book :=
  { b with status := .checked_out, version := b.version + 1 }

/-- Successful `trySetAvailable` of §4.2: flip the status and advance the
version token. -/
def setAvailable (b : Book) : Book :=
  { b with status := .available, version := b.version + 1 }

/-- Result of a checkout request (§4.4, §7): the new active reservation on
success, `notFound` for an absent book, `unavailable` for the fast path and
the lost race, `repairNeeded` when the ledger write cannot be applied. -/
inductive CheckoutResult
  | ok (r : Reservation)
  | notFound
  | unavailable
  | repairNeeded
deriving DecidableEq, Repr

/-- Result of a return request (§4.4, §7): `AlreadyCompleted` is surfaced as
success, so only `success` and `notFound` remain observable. -/
inductive ReturnResult
  | success
  | notFound
deriving DecidableEq, Repr

/-- Result of an extend-deadline request (§4.3, §7): `notActive` and
`invalidDeadline` are both surfaced as `InvalidState` (409). -/
inductive ExtendResult
  | success
  | notActive
  | notFound
  | invalidDeadline
deriving DecidableEq, Repr

/-- Modelled from the spec: §4.4 Checkout under quiescence.  Step 1 reads the
book; step 2 fails `Unavailable` with no write when the status is not
available; steps 3–5 run without interference here, so the CAS succeeds and
the ledger insert follows (the concurrent race of step 4 is modelled
separately by `CkSys`).  Reservation ids are generated fresh (I5); the
ledger insert is the `insertIfAbsent` of §4.1, so a caller-supplied id that
already exists leaves the `repairNeeded` class of §7 with no write performed.
The new reservation starts `active` with `return_deadline` one loan period
after `reservation_date` (I3). -/
def checkout (user_id book_id rid : String) (now period : Nat)
    (s : LibState) : CheckoutResult × LibState :=
  match blookup book_id s.books with
  | none => (.notFound, s)
  | some b =>
    if b.status ≠ .available then (.unavailable, s)
    else if (rlookup rid s.reservations).isSome then (.repairNeeded, s)
    else
      let r : Reservation :=
        { reservation_id := rid, user_id := user_id, book_id := book_id,
          status := .active, reservation_date := now,
          return_deadline := now + period }
      (.ok r, { books := bupdate book_id setCheckedOut s.books,
                reservations := r :: s.reservations })

/-- Modelled from the spec: §4.4 Return.  Absent reservation fails
`NotFound`; an already-completed reservation is an idempotent no-op returning
success; an active reservation is marked completed and the book is set
available by `trySetAvailable` (under quiescence the CAS succeeds). -/
def returnReservation (rid : String) (s : LibState) :
    ReturnResult × LibState :=
  match rlookup rid s.reservations with
  | none => (.notFound, s)
  | some r =>
    if r.status = .completed then (.success, s)
    else
      (.success,
       { books := bupdate r.book_id setAvailable s.books,
         reservations :=
           (rupdate rid (fun x => { x with status := .completed })
             s.reservations) })

/-- Modelled from the spec: `extendDeadline` of §4.3, a pure Ledger mutation
gated on `status = active`; extension on a completed reservation is rejected
(`InvalidState`, P4).  A new deadline earlier than the `reservation_date` is
likewise rejected so that invariant I3 of §3 (`return_deadline ≥
reservation_date` always) is maintained. -/
def extendDeadline (rid : String) (newDeadline : Nat) (s : LibState) :
    ExtendResult × LibState :=
  match rlookup rid s.reservations with
  | none => (.notFound, s)
  | some r =>
    if r.status = .completed then (.notActive, s)
    else if newDeadline < r.reservation_date then (.invalidDeadline, s)
    else
      (.success,
       { s with reservations :=
           (rupdate rid (fun x => { x with return_deadline := newDeadline })
             s.reservations) })

/-- Modelled from the spec: cancellation of a single requested id inside
§4.3/§4.4 bulk cancel.  An id not found is excluded from the count (not an
error); a found reservation is removed, and if it was active the referenced
book is set available exactly like a return, while cancelling a completed
reservation does not touch the book.  Returns whether the id was counted. -/
def cancelOne (rid : String) (s : LibState) : Bool × LibState :=
  match rlookup rid s.reservations with
  | none => (false, s)
  | some r =>
    (true,
     { books :=
         if r.status = .active then bupdate r.book_id setAvailable s.books
         else s.books,
       reservations := rremove rid s.reservations })

/-- Folding step of `bulkCancel`: thread the state and count the cancelled
ids. -/
def bulkCancelStep (acc : Nat × LibState) (rid : String) : Nat × LibState :=
  let p := cancelOne rid acc.2
  (acc.1 + (if p.1 then 1 else 0), p.2)

/-- Modelled from the spec: `bulkCancel` of §4.3/§4.4, the
`DELETE /reservations/bulk` contract — returns
`(cancelled_count, total_requested)` together with the new state. -/
def bulkCancel (reservation_ids : List String) (s : LibState) :
    (Nat × Nat) × LibState :=
  let p := reservation_ids.foldl bulkCancelStep (0, s)
  ((p.1, reservation_ids.length), p.2)

/-- Modelled from the spec: one Coordinator request of §4.4 (checkout,
return, extend deadline, or bulk cancel). -/
inductive Op
  | checkout (user_id book_id rid : String) (now period : Nat)
  | ret (rid : String)
  | extend (rid : String) (newDeadline : Nat)
  | bulkCancel (rids : List String)
deriving DecidableEq, Repr

/-- State reached after one Coordinator request. -/
def applyOp (op : Op) (s : LibState) : LibState :=
  match op with
  | .checkout u b r n p => (checkout u b r n p s).2
  | .ret rid => (returnReservation rid s).2
  | .extend rid nd => (extendDeadline rid nd s).2
  | .bulkCancel rids => (bulkCancel rids s).2

/-- State reached after a finite sequence of Coordinator requests has run to
quiescence. -/
def applyOps (ops : List Op) (s : LibState) : LibState :=
  ops.foldl (fun s op => applyOp op s) s

/-- The reservation is an active reservation referencing the given book id. -/
def isActiveFor (bid : String) (r : Reservation) : Bool :=
  decide (r.book_id = bid ∧ r.status = .active)

/-- Number of active reservations referencing the given book id. -/
def countActive (bid : String) (l : List Reservation) : Nat :=
  l.countP (isActiveFor bid)

/-- Invariant I1 of §3, as the claim states it: a book is `checked_out` iff
exactly one active reservation references it. -/
def InvariantI1 (s : LibState) : Prop :=
  ∀ b ∈ s.books,
    (b.status = .checked_out ↔ countActive b.book_id s.reservations = 1)

/-- Strengthened book-side invariant used to push I1 through the operations:
a checked-out book has exactly one active reservation and an available book
has none (I1 together with the mutual-exclusion invariant I2). -/
def BooksConsistent (s : LibState) : Prop :=
  ∀ b ∈ s.books,
    (b.status = .checked_out → countActive b.book_id s.reservations = 1) ∧
    (b.status = .available → countActive b.book_id s.reservations = 0)

/-- Invariant I5 of §3 at the ledger: reservation ids are unique. -/
def ResIdsNodup (s : LibState) : Prop :=
  (s.reservations.map Reservation.reservation_id).Nodup

/-- Well-formed quiescent state: unique reservation ids and consistent book
statuses. -/
def WF (s : LibState) : Prop := ResIdsNodup s ∧ BooksConsistent s

/-- Invariant I3 of §3: `return_deadline ≥ reservation_date` for every
reservation. -/
def DeadlinesOK (s : LibState) : Prop :=
  ∀ r ∈ s.reservations, r.reservation_date ≤ r.return_deadline

/-- Status of the reservation with the given id, `none` when absent. -/
def resStatusOf (rid : String) (s : LibState) : Option ReservationStatus :=
  (rlookup rid s.reservations).map Reservation.status

/-- The per-reservation state machine of §4.4: a reservation is created only
as `active`; `active` may stay, complete (return), or be deleted (cancel);
`completed` is terminal up to deletion; no transition re-enters `active`. -/
def allowedStep :
    Option ReservationStatus → Option ReservationStatus → Prop
  | none, x => x = none ∨ x = some .active
  | some .active, x =>
      x = some .active ∨ x = some .completed ∨ x = none
  | some .completed, x => x = some .completed ∨ x = none

/-- The operation is a checkout that would create the given reservation id
(ruled out for ids already used, per I5: ids are never reused). -/
def OpCreates (rid : String) : Op → Prop
  | .checkout _ _ r _ _ => r = rid
  | _ => False

end Core

namespace Core

/-- Modelled from the spec: the phase of one of N concurrent checkout
attempts on the same book (§4.4 steps 1–4, §5): `pending` before the read,
`readDone v` after observing version `v` of an available book, `done true`
after winning the CAS (the attempt goes on to receive the new active
reservation), `done false` after failing with `Unavailable` (fast path of
step 2 or lost race of step 4). -/
inductive AttemptState
  | pending
  | readDone (v : Nat)
  | done (success : Bool)
deriving DecidableEq, Repr

/-- Modelled from the spec: the single shared book row — the serialization
point of §5 — carrying its status and version token. -/
structure BookCell where
  status : BookStatus
  version : Nat
deriving DecidableEq, Repr

/-- Modelled from the spec: N concurrent checkout attempts racing on one
book (§5): the shared book row plus each attempt's phase. -/
structure CkSys where
  book : BookCell
  attempts : List AttemptState
deriving DecidableEq, Repr

/-- Modelled from the spec: one atomic micro-step of attempt `i`.  A pending
attempt performs the read of §4.4 step 1–2: it fails fast with `Unavailable`
if the book is not available, otherwise records the observed version.  An
attempt that has read performs the per-key linearizable CAS of step 3–4:
it wins iff the stored version still equals the observed one.  Steps by
finished or out-of-range indices do nothing. -/
def ckStep (s : CkSys) (i : Nat) : CkSys :=
  match s.attempts[i]? with
  | some .pending =>
    if s.book.status = .available then
      { s with attempts := s.attempts.set i (.readDone s.book.version) }
    else
      { s with attempts := s.attempts.set i (.done false) }
  | some (.readDone v) =>
    if s.book.version = v then
      { book := ⟨.checked_out, s.book.version + 1⟩,
        attempts := s.attempts.set i (.done true) }
    else
      { s with attempts := s.attempts.set i (.done false) }
  | _ => s

/-- Runs the attempts under an arbitrary interleaving: the schedule lists
which attempt takes its next micro-step. -/
def ckRun (sched : List Nat) (s : CkSys) : CkSys := sched.foldl ckStep s

/-- Initial state of the race: the book available at version `v0`, all `n`
attempts pending. -/
def ckInit (n v0 : Nat) : CkSys :=
  ⟨⟨.available, v0⟩, List.replicate n .pending⟩

/-- The attempt succeeded (won the CAS and receives the reservation). -/
def isSucc : AttemptState → Bool
  | .done true => true
  | _ => false

/-- The attempt finished (either outcome). -/
def isDone : AttemptState → Bool
  | .done _ => true
  | _ => false

/-- The attempt failed with `Unavailable`. -/
def isFail : AttemptState → Bool
  | .done false => true
  | _ => false

/-- Number of attempts that succeeded. -/
def succCount (s : CkSys) : Nat := s.attempts.countP isSucc

/-- Number of attempts that failed with `Unavailable`. -/
def failCount (s : CkSys) : Nat := s.attempts.countP isFail

/-- All attempts have finished. -/
def Quiescent (s : CkSys) : Prop := ∀ a ∈ s.attempts, isDone a = true

/-- Inductive invariant of the race: every recorded read observed the
initial version, and either nobody has finished and the book is untouched,
or the book has been flipped once and exactly one attempt succeeded. -/
def CkInv (v0 : Nat) (s : CkSys) : Prop :=
  (∀ a ∈ s.attempts, ∀ v, a = .readDone v → v = v0) ∧
  ((s.book = ⟨.available, v0⟩ ∧ ∀ a ∈ s.attempts, isDone a = false) ∨
   (s.book = ⟨.checked_out, v0 + 1⟩ ∧ succCount s = 1))

end Core

end DistLib

namespace DistLib

namespace Core

theorem rlookup_cons_self {x : Reservation} {xs : List Reservation}
    {rid : String} (h : x.reservation_id = rid) :
    rlookup rid (x :: xs) = some x := by
  simp [rlookup, List.find?_cons, h]

theorem rlookup_cons_ne {x : Reservation} {xs : List Reservation}
    {rid : String} (h : x.reservation_id ≠ rid) :
    rlookup rid (x :: xs) = rlookup rid xs := by
  simp [rlookup, List.find?_cons, h]

theorem rlookup_some {rid : String} {l : List Reservation} {r : Reservation}
    (h : rlookup rid l = some r) : r ∈ l ∧ r.reservation_id = rid := by
  refine ⟨List.mem_of_find?_eq_some h, ?_⟩
  have := List.find?_some h
  simpa using this

theorem rlookup_eq_none {rid : String} {l : List Reservation} :
    rlookup rid l = none ↔ ∀ x ∈ l, x.reservation_id ≠ rid := by
  simp [rlookup, List.find?_eq_none]

theorem rlookup_rupdate_self (rid : String) (f : Reservation → Reservation)
    (hf : ∀ x, (f x).reservation_id = x.reservation_id)
    (l : List Reservation) :
    rlookup rid (rupdate rid f l) = (rlookup rid l).map f := by
  induction l with
  | nil => rfl
  | cons x xs ih =>
    by_cases hx : x.reservation_id = rid
    · have hfx : (f x).reservation_id = rid := by rw [hf]; exact hx
      simp [rupdate, hx, rlookup_cons_self hfx, rlookup_cons_self hx]
    · have hfx : x.reservation_id ≠ rid := hx
      simp only [rupdate, List.map_cons, if_neg hx]
      rw [rlookup_cons_ne hfx, rlookup_cons_ne hfx]
      simpa [rupdate] using ih

theorem rlookup_rupdate_ne (rid rid2 : String) (hne : rid2 ≠ rid)
    (f : Reservation → Reservation)
    (hf : ∀ x, (f x).reservation_id = x.reservation_id)
    (l : List Reservation) :
    rlookup rid2 (rupdate rid f l) = rlookup rid2 l := by
  induction l with
  | nil => rfl
  | cons x xs ih =>
    by_cases hx : x.reservation_id = rid
    · have hfx : (f x).reservation_id ≠ rid2 := by
        rw [hf, hx]; exact fun h => hne h.symm
      have hx2 : x.reservation_id ≠ rid2 := by
        rw [hx]; exact fun h => hne h.symm
      simp only [rupdate, List.map_cons, if_pos hx]
      rw [rlookup_cons_ne hfx, rlookup_cons_ne hx2]
      simpa [rupdate] using ih
    · by_cases hx2 : x.reservation_id = rid2
      · simp only [rupdate, List.map_cons, if_neg hx]
        rw [rlookup_cons_self hx2, rlookup_cons_self hx2]
      · simp only [rupdate, List.map_cons, if_neg hx]
        rw [rlookup_cons_ne hx2, rlookup_cons_ne hx2]
        simpa [rupdate] using ih

theorem rlookup_rremove_self (rid : String) (l : List Reservation) :
    rlookup rid (rremove rid l) = none := by
  rw [rlookup_eq_none]
  intro x hx
  have := List.of_mem_filter hx
  simpa using this

theorem rlookup_rremove_ne (rid rid2 : String) (hne : rid2 ≠ rid)
    (l : List Reservation) :
    rlookup rid2 (rremove rid l) = rlookup rid2 l := by
  induction l with
  | nil => rfl
  | cons x xs ih =>
    by_cases hx : x.reservation_id = rid
    · have hx2 : x.reservation_id ≠ rid2 := by
        rw [hx]; exact fun h => hne h.symm
      have hdrop : rremove rid (x :: xs) = rremove rid xs := by
        simp [rremove, List.filter_cons, hx]
      rw [hdrop, rlookup_cons_ne hx2]
      exact ih
    · have hkeep : rremove rid (x :: xs) = x :: rremove rid xs := by
        simp [rremove, List.filter_cons, hx]
      rw [hkeep]
      by_cases hx2 : x.reservation_id = rid2
      · rw [rlookup_cons_self hx2, rlookup_cons_self hx2]
      · rw [rlookup_cons_ne hx2, rlookup_cons_ne hx2]
        exact ih

theorem rupdate_map_id (rid : String) (f : Reservation → Reservation)
    (hf : ∀ x, (f x).reservation_id = x.reservation_id)
    (l : List Reservation) :
    (rupdate rid f l).map Reservation.reservation_id =
      l.map Reservation.reservation_id := by
  induction l with
  | nil => rfl
  | cons x xs ih =>
    by_cases hx : x.reservation_id = rid
    · simp only [rupdate, List.map_cons, if_pos hx, hf]
      simpa [rupdate] using ih
    · simp only [rupdate, List.map_cons, if_neg hx]
      simpa [rupdate] using ih

theorem blookup_some {bid : String} {l : List Book} {b : Book}
    (h : blookup bid l = some b) : b ∈ l ∧ b.book_id = bid := by
  refine ⟨List.mem_of_find?_eq_some h, ?_⟩
  have := List.find?_some h
  simpa using this

theorem mem_bupdate {bid : String} {f : Book → Book} {l : List Book}
    {b2 : Book} (h : b2 ∈ bupdate bid f l) :
    ∃ b ∈ l, (b.book_id = bid ∧ b2 = f b) ∨ (b.book_id ≠ bid ∧ b2 = b) := by
  rcases List.mem_map.mp h with ⟨b, hb, hup⟩
  refine ⟨b, hb, ?_⟩
  by_cases hk : b.book_id = bid
  · exact Or.inl ⟨hk, by rw [← hup, if_pos hk]⟩
  · exact Or.inr ⟨hk, by rw [← hup, if_neg hk]⟩

theorem tail_id_ne {rid : String} {x y : Reservation}
    {xs : List Reservation}
    (hnd1 : x.reservation_id ∉ xs.map Reservation.reservation_id)
    (hx : x.reservation_id = rid) (hy : y ∈ xs) :
    y.reservation_id ≠ rid := by
  intro hc
  apply hnd1
  rw [hx, ← hc]
  exact List.mem_map_of_mem Reservation.reservation_id hy

theorem rlookup_unique {rid : String} {l : List Reservation}
    {r : Reservation} (hnd : (l.map Reservation.reservation_id).Nodup)
    (h : rlookup rid l = some r) :
    ∀ y ∈ l, y.reservation_id = rid → y = r := by
  induction l with
  | nil => intro y hy; cases hy
  | cons x xs ih =>
    rw [List.map_cons, List.nodup_cons] at hnd
    intro y hy hyid
    by_cases hx : x.reservation_id = rid
    · rw [rlookup_cons_self hx] at h
      cases List.mem_cons.mp hy with
      | inl he => rw [he, Option.some_inj.mp h]
      | inr htl => exact absurd hyid (tail_id_ne hnd.1 hx htl)
    · rw [rlookup_cons_ne hx] at h
      cases List.mem_cons.mp hy with
      | inl he => exact absurd (he ▸ hyid) hx
      | inr htl => exact ih hnd.2 h y htl hyid

theorem countP_rupdate (p : Reservation → Bool) (rid : String)
    (f : Reservation → Reservation) {l : List Reservation} {r : Reservation}
    (hnd : (l.map Reservation.reservation_id).Nodup)
    (h : rlookup rid l = some r) :
    (rupdate rid f l).countP p + (if p r then 1 else 0) =
      l.countP p + (if p (f r) then 1 else 0) := by
  induction l with
  | nil => cases h
  | cons x xs ih =>
    rw [List.map_cons, List.nodup_cons] at hnd
    by_cases hx : x.reservation_id = rid
    · rw [rlookup_cons_self hx] at h
      have hxr : x = r := Option.some_inj.mp h
      have htl : rupdate rid f xs = xs := by
        have hcong : ∀ y ∈ xs,
            (if y.reservation_id = rid then f y else y) = id y := by
          intro y hy
          rw [if_neg (tail_id_ne hnd.1 hx hy)]
          rfl
        calc rupdate rid f xs = xs.map id := List.map_congr_left hcong
          _ = xs := List.map_id xs
      simp only [rupdate, List.map_cons, if_pos hx, List.countP_cons]
      rw [show List.map (fun r => if r.reservation_id = rid then f r else r) xs
            = rupdate rid f xs from rfl, htl, hxr]
      omega
    · rw [rlookup_cons_ne hx] at h
      simp only [rupdate, List.map_cons, if_neg hx, List.countP_cons]
      have := ih hnd.2 h
      simp only [rupdate] at this
      omega

theorem countP_rremove (p : Reservation → Bool) (rid : String)
    {l : List Reservation} {r : Reservation}
    (hnd : (l.map Reservation.reservation_id).Nodup)
    (h : rlookup rid l = some r) :
    (rremove rid l).countP p + (if p r then 1 else 0) = l.countP p := by
  induction l with
  | nil => cases h
  | cons x xs ih =>
    rw [List.map_cons, List.nodup_cons] at hnd
    by_cases hx : x.reservation_id = rid
    · rw [rlookup_cons_self hx] at h
      have hxr : x = r := Option.some_inj.mp h
      have htl : rremove rid xs = xs := by
        apply List.filter_eq_self.mpr
        intro y hy
        simpa using tail_id_ne hnd.1 hx hy
      have hdrop : rremove rid (x :: xs) = rremove rid xs := by
        simp [rremove, List.filter_cons, hx]
      rw [hdrop, htl, List.countP_cons, hxr]
    · rw [rlookup_cons_ne hx] at h
      have hkeep : rremove rid (x :: xs) = x :: rremove rid xs := by
        simp [rremove, List.filter_cons, hx]
      rw [hkeep, List.countP_cons, List.countP_cons]
      have := ih hnd.2 h
      omega

theorem countActive_pos_of_mem {bid : String} {l : List Reservation}
    {r : Reservation} (hm : r ∈ l) (hb : r.book_id = bid)
    (ha : r.status = .active) : 0 < countActive bid l := by
  rw [countActive, List.countP_pos_iff]
  exact ⟨r, hm, by simp [isActiveFor, hb, ha]⟩

theorem status_cases (st : ReservationStatus) :
    st = .active ∨ st = .completed := by
  cases st
  · exact Or.inl rfl
  · exact Or.inr rfl

theorem checkout_notFound {u bid rid : String} {now period : Nat}
    {s : LibState} (hb : blookup bid s.books = none) :
    checkout u bid rid now period s = (.notFound, s) := by
  simp [checkout, hb]

theorem checkout_unavailable {u bid rid : String} {now period : Nat}
    {s : LibState} {b : Book} (hb : blookup bid s.books = some b)
    (hstat : b.status ≠ .available) :
    checkout u bid rid now period s = (.unavailable, s) := by
  simp [checkout, hb, hstat]

theorem checkout_idTaken {u bid rid : String} {now period : Nat}
    {s : LibState} {b : Book} (hb : blookup bid s.books = some b)
    (hstat : b.status = .available) {r0 : Reservation}
    (hr : rlookup rid s.reservations = some r0) :
    checkout u bid rid now period s = (.repairNeeded, s) := by
  simp [checkout, hb, hstat, hr]

theorem checkout_success {u bid rid : String} {now period : Nat}
    {s : LibState} {b : Book} (hb : blookup bid s.books = some b)
    (hstat : b.status = .available)
    (hr : rlookup rid s.reservations = none) :
    checkout u bid rid now period s =
      (.ok ⟨rid, u, bid, .active, now, now + period⟩,
       { books := bupdate bid setCheckedOut s.books,
         reservations :=
           (⟨rid, u, bid, .active, now, now + period⟩ : Reservation) ::
             s.reservations }) := by
  simp [checkout, hb, hstat, hr]

theorem ret_notFound {rid : String} {s : LibState}
    (h : rlookup rid s.reservations = none) :
    returnReservation rid s = (.notFound, s) := by
  simp [returnReservation, h]

theorem ret_completed {rid : String} {s : LibState} {r : Reservation}
    (h : rlookup rid s.reservations = some r)
    (hc : r.status = .completed) :
    returnReservation rid s = (.success, s) := by
  simp [returnReservation, h, hc]

theorem ret_active {rid : String} {s : LibState} {r : Reservation}
    (h : rlookup rid s.reservations = some r) (ha : r.status = .active) :
    returnReservation rid s =
      (.success,
       { books := bupdate r.book_id setAvailable s.books,
         reservations :=
           (rupdate rid (fun x => { x with status := .completed })
             s.reservations) }) := by
  simp [returnReservation, h, ha]

theorem extend_notFound {rid : String} {nd : Nat} {s : LibState}
    (h : rlookup rid s.reservations = none) :
    extendDeadline rid nd s = (.notFound, s) := by
  simp [extendDeadline, h]

theorem extend_notActive {rid : String} {nd : Nat} {s : LibState}
    {r : Reservation} (h : rlookup rid s.reservations = some r)
    (hc : r.status = .completed) :
    extendDeadline rid nd s = (.notActive, s) := by
  simp [extendDeadline, h, hc]

theorem extend_invalid {rid : String} {nd : Nat} {s : LibState}
    {r : Reservation} (h : rlookup rid s.reservations = some r)
    (ha : r.status = .active) (hlt : nd < r.reservation_date) :
    extendDeadline rid nd s = (.invalidDeadline, s) := by
  simp [extendDeadline, h, ha, hlt]

theorem extend_success {rid : String} {nd : Nat} {s : LibState}
    {r : Reservation} (h : rlookup rid s.reservations = some r)
    (ha : r.status = .active) (hge : r.reservation_date ≤ nd) :
    extendDeadline rid nd s =
      (.success,
       { s with reservations :=
           (rupdate rid (fun x => { x with return_deadline := nd })
             s.reservations) }) := by
  simp [extendDeadline, h, ha, Nat.not_lt.mpr hge]

theorem cancelOne_notFound {rid : String} {s : LibState}
    (h : rlookup rid s.reservations = none) :
    cancelOne rid s = (false, s) := by
  simp [cancelOne, h]

theorem cancelOne_found {rid : String} {s : LibState} {r : Reservation}
    (h : rlookup rid s.reservations = some r) :
    cancelOne rid s =
      (true,
       { books :=
           if r.status = .active then
             bupdate r.book_id setAvailable s.books
           else s.books,
         reservations := rremove rid s.reservations }) := by
  simp [cancelOne, h]

theorem bulkCancelStep_snd (acc : Nat × LibState) (rid : String) :
    (bulkCancelStep acc rid).2 = (cancelOne rid acc.2).2 := rfl

theorem bulkCancel_foldl_preserves {P : LibState → Prop}
    (hP : ∀ rid s, P s → P (cancelOne rid s).2) :
    ∀ (rids : List String) (acc : Nat × LibState),
      P acc.2 → P ((rids.foldl bulkCancelStep acc)).2 := by
  intro rids
  induction rids with
  | nil => intro acc h; exact h
  | cons rid rids ih =>
    intro acc h
    rw [List.foldl_cons]
    exact ih _ (by rw [bulkCancelStep_snd]; exact hP rid acc.2 h)

theorem applyOps_preserves {P : LibState → Prop}
    (hP : ∀ op s, P s → P (applyOp op s)) :
    ∀ (ops : List Op) (s : LibState), P s → P (applyOps ops s) := by
  intro ops
  induction ops with
  | nil => intro s h; exact h
  | cons op ops ih =>
    intro s h
    rw [applyOps, List.foldl_cons]
    exact ih _ (hP op s h)

theorem book_status_cases (st : BookStatus) :
    st = .available ∨ st = .checked_out := by
  cases st
  · exact Or.inl rfl
  · exact Or.inr rfl

theorem rid_not_mem_map {rid : String} {l : List Reservation}
    (h : rlookup rid l = none) :
    rid ∉ l.map Reservation.reservation_id := by
  intro hc
  rcases List.mem_map.mp hc with ⟨x, hx, hid⟩
  exact (rlookup_eq_none.mp h x hx) hid

theorem countActive_cons (bid : String) (r : Reservation)
    (l : List Reservation) :
    countActive bid (r :: l) =
      countActive bid l + (if isActiveFor bid r then 1 else 0) :=
  List.countP_cons _ _ _

theorem countActive_rupdate (bid rid : String)
    (f : Reservation → Reservation) {l : List Reservation} {r : Reservation}
    (hnd : (l.map Reservation.reservation_id).Nodup)
    (h : rlookup rid l = some r) :
    countActive bid (rupdate rid f l) +
        (if isActiveFor bid r then 1 else 0) =
      countActive bid l + (if isActiveFor bid (f r) then 1 else 0) :=
  countP_rupdate (isActiveFor bid) rid f hnd h

theorem countActive_rremove (bid rid : String) {l : List Reservation}
    {r : Reservation} (hnd : (l.map Reservation.reservation_id).Nodup)
    (h : rlookup rid l = some r) :
    countActive bid (rremove rid l) +
        (if isActiveFor bid r then 1 else 0) =
      countActive bid l :=
  countP_rremove (isActiveFor bid) rid hnd h

theorem resIdsNodup_checkout (u bid rid : String) (now period : Nat)
    (s : LibState) (hnd : ResIdsNodup s) :
    ResIdsNodup (checkout u bid rid now period s).2 := by
  cases hb : blookup bid s.books with
  | none => rw [checkout_notFound hb]; exact hnd
  | some b =>
    by_cases hstat : b.status = .available
    · cases hr : rlookup rid s.reservations with
      | some r0 => rw [checkout_idTaken hb hstat hr]; exact hnd
      | none =>
        rw [checkout_success hb hstat hr]
        simp only [ResIdsNodup, List.map_cons, List.nodup_cons]
        exact ⟨rid_not_mem_map hr, hnd⟩
    · rw [checkout_unavailable hb hstat]; exact hnd

theorem resIdsNodup_ret (rid : String) (s : LibState)
    (hnd : ResIdsNodup s) : ResIdsNodup (returnReservation rid s).2 := by
  cases hr : rlookup rid s.reservations with
  | none => rw [ret_notFound hr]; exact hnd
  | some r =>
    rcases status_cases r.status with ha | hc
    · rw [ret_active hr ha]
      simp only [ResIdsNodup]
      rw [rupdate_map_id rid (fun x => { x with status := .completed })
        (fun x => rfl)]
      exact hnd
    · rw [ret_completed hr hc]; exact hnd

theorem resIdsNodup_extend (rid : String) (nd : Nat) (s : LibState)
    (hnd : ResIdsNodup s) : ResIdsNodup (extendDeadline rid nd s).2 := by
  cases hr : rlookup rid s.reservations with
  | none => rw [extend_notFound hr]; exact hnd
  | some r =>
    rcases status_cases r.status with ha | hc
    · by_cases hlt : nd < r.reservation_date
      · rw [extend_invalid hr ha hlt]; exact hnd
      · rw [extend_success hr ha (Nat.not_lt.mp hlt)]
        simp only [ResIdsNodup]
        rw [rupdate_map_id rid (fun x => { x with return_deadline := nd })
          (fun x => rfl)]
        exact hnd
    · rw [extend_notActive hr hc]; exact hnd

theorem resIdsNodup_cancelOne (rid : String) (s : LibState)
    (hnd : ResIdsNodup s) : ResIdsNodup (cancelOne rid s).2 := by
  cases hr : rlookup rid s.reservations with
  | none => rw [cancelOne_notFound hr]; exact hnd
  | some r =>
    rw [cancelOne_found hr]
    simp only [ResIdsNodup]
    exact List.Nodup.sublist
      (List.Sublist.map Reservation.reservation_id (List.filter_sublist _)) hnd

theorem resIdsNodup_applyOp (op : Op) (s : LibState)
    (hnd : ResIdsNodup s) : ResIdsNodup (applyOp op s) := by
  cases op with
  | checkout u b r n p => exact resIdsNodup_checkout u b r n p s hnd
  | ret rid => exact resIdsNodup_ret rid s hnd
  | extend rid nd => exact resIdsNodup_extend rid nd s hnd
  | bulkCancel rids =>
    exact bulkCancel_foldl_preserves
      (fun rid s h => resIdsNodup_cancelOne rid s h) rids (0, s) hnd

theorem wf_checkout (u bid rid : String) (now period : Nat) (s : LibState)
    (h : WF s) : WF (checkout u bid rid now period s).2 := by
  obtain ⟨hnd, hbc⟩ := h
  refine ⟨resIdsNodup_checkout u bid rid now period s hnd, ?_⟩
  cases hb : blookup bid s.books with
  | none => rw [checkout_notFound hb]; exact hbc
  | some b =>
    by_cases hstat : b.status = .available
    · cases hr : rlookup rid s.reservations with
      | some r0 => rw [checkout_idTaken hb hstat hr]; exact hbc
      | none =>
        rw [checkout_success hb hstat hr]
        intro b2 hb2
        dsimp only at hb2 ⊢
        rcases mem_bupdate hb2 with ⟨b0, hb0, ⟨hk, he⟩ | ⟨hk, he⟩⟩
        · rw [he]
          constructor
          · intro _
            have hz : countActive bid s.reservations = 0 := by
              have := (hbc b (blookup_some hb).1).2 hstat
              rwa [(blookup_some hb).2] at this
            have hkey : (setCheckedOut b0).book_id = b0.book_id := rfl
            rw [hkey, hk, countActive_cons]
            have hact : isActiveFor bid
                (⟨rid, u, bid, .active, now, now + period⟩ : Reservation) =
                true := by
              simp [isActiveFor]
            rw [hact, hz]
            simp
          · intro hav
            exact absurd hav (by simp [setCheckedOut])
        · rw [he]
          have hne : isActiveFor b0.book_id
              (⟨rid, u, bid, .active, now, now + period⟩ : Reservation) =
              false := by
            simp [isActiveFor]
            intro hc
            exact absurd hc.symm hk
          constructor
          · intro hco
            rw [countActive_cons, hne]
            simpa using (hbc b0 hb0).1 hco
          · intro hav
            rw [countActive_cons, hne]
            simpa using (hbc b0 hb0).2 hav
    · rw [checkout_unavailable hb hstat]; exact hbc

theorem wf_ret (rid : String) (s : LibState) (h : WF s) :
    WF (returnReservation rid s).2 := by
  obtain ⟨hnd, hbc⟩ := h
  refine ⟨resIdsNodup_ret rid s hnd, ?_⟩
  cases hr : rlookup rid s.reservations with
  | none => rw [ret_notFound hr]; exact hbc
  | some r =>
    rcases status_cases r.status with ha | hc
    · rw [ret_active hr ha]
      intro b2 hb2
      dsimp only at hb2 ⊢
      rcases mem_bupdate hb2 with ⟨b0, hb0, ⟨hk, he⟩ | ⟨hk, he⟩⟩
      · rw [he]
        constructor
        · intro hco
          exact absurd hco (by simp [setAvailable])
        · intro _
          have h1 := countActive_rupdate r.book_id rid
            (fun x => { x with status := .completed }) hnd hr
          have hpr : isActiveFor r.book_id r = true := by
            simp [isActiveFor, ha]
          have hpf : isActiveFor r.book_id
              ({ r with status := .completed } : Reservation) = false := by
            simp [isActiveFor]
          rw [hpr, hpf] at h1
          simp only [if_true] at h1
          simp only [Bool.false_eq_true, if_false] at h1
          have hold : countActive r.book_id s.reservations = 1 := by
            rcases book_status_cases b0.status with hav | hco
            · have hz := (hbc b0 hb0).2 hav
              rw [hk] at hz
              have hpos := countActive_pos_of_mem (rlookup_some hr).1 rfl ha
              omega
            · have := (hbc b0 hb0).1 hco
              rw [hk] at this
              exact this
          have hkey : (setAvailable b0).book_id = b0.book_id := rfl
          rw [hkey, hk]
          omega
      · rw [he]
        have h1 := countActive_rupdate b0.book_id rid
          (fun x => { x with status := .completed }) hnd hr
        have hpr : isActiveFor b0.book_id r = false := by
          simp [isActiveFor]
          intro hc
          exact absurd hc.symm hk
        have hpf : isActiveFor b0.book_id
            ({ r with status := .completed } : Reservation) = false := by
          simp [isActiveFor]
        rw [hpr, hpf] at h1
        simp only [Bool.false_eq_true, if_false] at h1
        constructor
        · intro hco
          have := (hbc b0 hb0).1 hco
          omega
        · intro hav
          have := (hbc b0 hb0).2 hav
          omega
    · rw [ret_completed hr hc]; exact hbc

theorem wf_cancelOne (rid : String) (s : LibState) (h : WF s) :
    WF (cancelOne rid s).2 := by
  obtain ⟨hnd, hbc⟩ := h
  refine ⟨resIdsNodup_cancelOne rid s hnd, ?_⟩
  cases hr : rlookup rid s.reservations with
  | none => rw [cancelOne_notFound hr]; exact hbc
  | some r =>
    rw [cancelOne_found hr]
    rcases status_cases r.status with ha | hc
    · rw [if_pos ha]
      intro b2 hb2
      dsimp only at hb2 ⊢
      rcases mem_bupdate hb2 with ⟨b0, hb0, ⟨hk, he⟩ | ⟨hk, he⟩⟩
      · rw [he]
        constructor
        · intro hco
          exact absurd hco (by simp [setAvailable])
        · intro _
          have h1 := countActive_rremove r.book_id rid hnd hr
          have hpr : isActiveFor r.book_id r = true := by
            simp [isActiveFor, ha]
          rw [hpr] at h1
          simp only [if_true] at h1
          have hold : countActive r.book_id s.reservations = 1 := by
            rcases book_status_cases b0.status with hav | hco
            · have hz := (hbc b0 hb0).2 hav
              rw [hk] at hz
              have hpos := countActive_pos_of_mem (rlookup_some hr).1 rfl ha
              omega
            · have := (hbc b0 hb0).1 hco
              rw [hk] at this
              exact this
          have hkey : (setAvailable b0).book_id = b0.book_id := rfl
          rw [hkey, hk]
          omega
      · rw [he]
        have h1 := countActive_rremove b0.book_id rid hnd hr
        have hpr : isActiveFor b0.book_id r = false := by
          simp [isActiveFor]
          intro hc
          exact absurd hc.symm hk
        rw [hpr] at h1
        simp only [Bool.false_eq_true, if_false] at h1
        constructor
        · intro hco
          have := (hbc b0 hb0).1 hco
          omega
        · intro hav
          have := (hbc b0 hb0).2 hav
          omega
    · rw [if_neg (by rw [hc]; simp)]
      intro b2 hb2
      dsimp only at hb2 ⊢
      have h1 := countActive_rremove b2.book_id rid hnd hr
      have hpr : isActiveFor b2.book_id r = false := by
        simp [isActiveFor, hc]
      rw [hpr] at h1
      simp only [Bool.false_eq_true, if_false] at h1
      constructor
      · intro hco
        have := (hbc b2 hb2).1 hco
        omega
      · intro hav
        have := (hbc b2 hb2).2 hav
        omega

theorem wf_extend (rid : String) (nd : Nat) (s : LibState) (h : WF s) :
    WF (extendDeadline rid nd s).2 := by
  obtain ⟨hnd, hbc⟩ := h
  refine ⟨resIdsNodup_extend rid nd s hnd, ?_⟩
  cases hr : rlookup rid s.reservations with
  | none => rw [extend_notFound hr]; exact hbc
  | some r =>
    rcases status_cases r.status with ha | hc
    · by_cases hlt : nd < r.reservation_date
      · rw [extend_invalid hr ha hlt]; exact hbc
      · rw [extend_success hr ha (Nat.not_lt.mp hlt)]
        intro b2 hb2
        dsimp only at hb2 ⊢
        have h1 := countActive_rupdate b2.book_id rid
          (fun x => { x with return_deadline := nd }) hnd hr
        have hsame : isActiveFor b2.book_id
            ({ r with return_deadline := nd } : Reservation) =
            isActiveFor b2.book_id r := by
          simp [isActiveFor]
        rw [hsame] at h1
        constructor
        · intro hco
          have := (hbc b2 hb2).1 hco
          omega
        · intro hav
          have := (hbc b2 hb2).2 hav
          omega
    · rw [extend_notActive hr hc]; exact hbc

theorem wf_applyOp (op : Op) (s : LibState) (h : WF s) :
    WF (applyOp op s) := by
  cases op with
  | checkout u b r n p => exact wf_checkout u b r n p s h
  | ret rid => exact wf_ret rid s h
  | extend rid nd => exact wf_extend rid nd s h
  | bulkCancel rids =>
    exact bulkCancel_foldl_preserves
      (fun rid s h => wf_cancelOne rid s h) rids (0, s) h

theorem wf_applyOps (ops : List Op) (s : LibState) (h : WF s) :
    WF (applyOps ops s) :=
  applyOps_preserves wf_applyOp ops s h

end Core

end DistLib

namespace DistLib

namespace Core

theorem wf_implies_I1 {s : LibState} (h : WF s) : InvariantI1 s := by
  intro b hb
  constructor
  · exact (h.2 b hb).1
  · intro h1
    rcases book_status_cases b.status with hav | hco
    · have := (h.2 b hb).2 hav
      omega
    · exact hco

/-- C2: after any finite sequence of checkout, return, extend and bulk-cancel
operations has reached quiescence, starting from a well-formed state, every
book has `status = checked_out` iff exactly one reservation referencing it is
`active` (invariant I1). -/
theorem quiescent_checked_out_iff_unique_active :
    ∀ (ops : List Op) (s : LibState), WF s →
      InvariantI1 (applyOps ops s) := by
  intro ops s h
  exact wf_implies_I1 (wf_applyOps ops s h)

/-- Witness for C2 at a concrete run: one book, a checkout, a return and a
second checkout by another user. -/
theorem quiescent_checked_out_iff_unique_active_witness :
    WF (⟨[⟨"b1", "T", .available, 0⟩], []⟩ : LibState) ∧
    InvariantI1 (applyOps
      [.checkout "u1" "b1" "r1" 0 14, .ret "r1",
       .checkout "u2" "b1" "r2" 20 14]
      ⟨[⟨"b1", "T", .available, 0⟩], []⟩) := by
  have hwf : WF (⟨[⟨"b1", "T", .available, 0⟩], []⟩ : LibState) := by
    constructor
    · exact List.nodup_nil
    · intro b hb
      constructor
      · intro hc
        rcases List.mem_singleton.mp hb with rfl
        cases hc
      · intro _
        rcases List.mem_singleton.mp hb with rfl
        rfl
  exact ⟨hwf, quiescent_checked_out_iff_unique_active
    [.checkout "u1" "b1" "r1" 0 14, .ret "r1",
     .checkout "u2" "b1" "r2" 20 14] _ hwf⟩

/-- C3: returning an active reservation twice succeeds both times; the first
call sets the referenced book available and the second call is a no-op that
changes no state, so the book is set available exactly once. -/
theorem return_twice_idempotent :
    ∀ (s : LibState) (rid : String) (r : Reservation),
      rlookup rid s.reservations = some r → r.status = .active →
      (returnReservation rid s).1 = .success ∧
      (∀ b ∈ (returnReservation rid s).2.books,
         b.book_id = r.book_id → b.status = .available) ∧
      returnReservation rid (returnReservation rid s).2 =
        (.success, (returnReservation rid s).2) := by
  intro s rid r h ha
  rw [ret_active h ha]
  refine ⟨rfl, ?_, ?_⟩
  · dsimp only
    intro b hb hbid
    rcases mem_bupdate hb with ⟨b0, hb0, ⟨hk, he⟩ | ⟨hk, he⟩⟩
    · rw [he]
      rfl
    · rw [he] at hbid
      exact absurd hbid hk
  · have h2 : rlookup rid
        (rupdate rid (fun x => { x with status := .completed })
          s.reservations) =
        some { r with status := .completed } := by
      rw [rlookup_rupdate_self rid
        (fun x => { x with status := .completed }) (fun x => rfl), h]
      rfl
    exact ret_completed h2 rfl

/-- Witness for C3 at a concrete state: one checked-out book and its active
reservation. -/
theorem return_twice_idempotent_witness :
    (returnReservation "r1"
      ⟨[⟨"A", "T", .checked_out, 1⟩],
       [⟨"r1", "u1", "A", .active, 5, 19⟩]⟩).1 = .success ∧
    (∀ b ∈ (returnReservation "r1"
        ⟨[⟨"A", "T", .checked_out, 1⟩],
         [⟨"r1", "u1", "A", .active, 5, 19⟩]⟩).2.books,
       b.book_id = "A" → b.status = .available) ∧
    returnReservation "r1"
        (returnReservation "r1"
          ⟨[⟨"A", "T", .checked_out, 1⟩],
           [⟨"r1", "u1", "A", .active, 5, 19⟩]⟩).2 =
      (.success,
       (returnReservation "r1"
         ⟨[⟨"A", "T", .checked_out, 1⟩],
          [⟨"r1", "u1", "A", .active, 5, 19⟩]⟩).2) :=
  return_twice_idempotent
    ⟨[⟨"A", "T", .checked_out, 1⟩], [⟨"r1", "u1", "A", .active, 5, 19⟩]⟩
    "r1" ⟨"r1", "u1", "A", .active, 5, 19⟩ (by decide) rfl

/-- C4: extending the deadline of a completed reservation always fails with
`InvalidState` (`notActive`) and never silently succeeds; the state — in
particular the reservation's `return_deadline` — is unchanged. -/
theorem extend_completed_always_fails :
    ∀ (s : LibState) (rid : String) (nd : Nat) (r : Reservation),
      rlookup rid s.reservations = some r → r.status = .completed →
      extendDeadline rid nd s = (.notActive, s) := by
  intro s rid nd r h hc
  exact extend_notActive h hc

/-- Witness for C4 at a concrete completed reservation. -/
theorem extend_completed_always_fails_witness :
    extendDeadline "r1" 99
        ⟨[⟨"A", "T", .available, 2⟩],
         [⟨"r1", "u1", "A", .completed, 5, 19⟩]⟩ =
      (.notActive,
       ⟨[⟨"A", "T", .available, 2⟩],
        [⟨"r1", "u1", "A", .completed, 5, 19⟩]⟩) :=
  extend_completed_always_fails
    ⟨[⟨"A", "T", .available, 2⟩], [⟨"r1", "u1", "A", .completed, 5, 19⟩]⟩
    "r1" 99 ⟨"r1", "u1", "A", .completed, 5, 19⟩ (by decide) rfl

/-- C6: a checkout request for a book whose observed status is not available
fails with `Unavailable` on the fast path and performs no write: the book
rows, the reservation ledger, and hence every user's reservation history are
exactly those of the pre-call state. -/
theorem checkout_unavailable_no_write :
    ∀ (s : LibState) (u bid rid : String) (now period : Nat) (b : Book),
      blookup bid s.books = some b → b.status ≠ .available →
      checkout u bid rid now period s = (.unavailable, s) := by
  intro s u bid rid now period b hb hs
  exact checkout_unavailable hb hs

/-- Witness for C6 at a concrete checked-out book. -/
theorem checkout_unavailable_no_write_witness :
    checkout "u2" "A" "r9" 30 14
        ⟨[⟨"A", "T", .checked_out, 1⟩],
         [⟨"r1", "u1", "A", .active, 5, 19⟩]⟩ =
      (.unavailable,
       ⟨[⟨"A", "T", .checked_out, 1⟩],
        [⟨"r1", "u1", "A", .active, 5, 19⟩]⟩) :=
  checkout_unavailable_no_write
    ⟨[⟨"A", "T", .checked_out, 1⟩], [⟨"r1", "u1", "A", .active, 5, 19⟩]⟩
    "u2" "A" "r9" 30 14 ⟨"A", "T", .checked_out, 1⟩ (by decide) (by decide)

end Core

end DistLib

namespace DistLib

namespace Frontend

/-- C10: `formatDate` is total — it never throws for any input: `null`,
`undefined` (both `none`) and the empty string map to the empty string; a
non-empty string that does not parse as a valid date is returned unchanged;
a parseable non-empty string is rendered by the locale formatter. -/
theorem formatDate_total_cases :
    ∀ {D : Type} (parse : String → Option D) (fmt : D → String),
      formatDate parse fmt none = "" ∧
      formatDate parse fmt (some "") = "" ∧
      (∀ s, s ≠ "" → parse s = none → formatDate parse fmt (some s) = s) ∧
      (∀ s d, s ≠ "" → parse s = some d →
        formatDate parse fmt (some s) = fmt d) := by
  intro D parse fmt
  refine ⟨rfl, by simp [formatDate], ?_, ?_⟩
  · intro s hs hp
    simp [formatDate, hs, hp]
  · intro s d hs hp
    simp [formatDate, hs, hp]

/-- Witness for C10 with a concrete parser that accepts exactly one date
string. -/
theorem formatDate_total_cases_witness :
    formatDate (fun s => if s = "2023-10-27T10:00:00Z" then some () else none)
        (fun _ => "October 27, 2023") none = "" ∧
    formatDate (fun s => if s = "2023-10-27T10:00:00Z" then some () else none)
        (fun _ => "October 27, 2023") (some "") = "" ∧
    formatDate (fun s => if s = "2023-10-27T10:00:00Z" then some () else none)
        (fun _ => "October 27, 2023") (some "not-a-date") = "not-a-date" ∧
    formatDate (fun s => if s = "2023-10-27T10:00:00Z" then some () else none)
        (fun _ => "October 27, 2023") (some "2023-10-27T10:00:00Z") =
      "October 27, 2023" := by
  refine ⟨(formatDate_total_cases _ _).1, (formatDate_total_cases _ _).2.1,
    (formatDate_total_cases _ _).2.2.1 "not-a-date" (by decide) (by decide),
    (formatDate_total_cases _ _).2.2.2 "2023-10-27T10:00:00Z" () (by decide)
      (by decide)⟩

end Frontend

namespace Core

theorem allowedStep_refl (x : Option ReservationStatus) : allowedStep x x := by
  cases x with
  | none => exact Or.inl rfl
  | some st =>
    cases st with
    | active => exact Or.inl rfl
    | completed => exact Or.inl rfl

theorem allowedStep_none_right (x : Option ReservationStatus) :
    allowedStep x none := by
  cases x with
  | none => exact Or.inl rfl
  | some st =>
    cases st with
    | active => exact Or.inr (Or.inr rfl)
    | completed => exact Or.inr rfl

theorem allowedStep_checkout (u bid rid0 : String) (now period : Nat)
    (s : LibState) (rid : String) :
    allowedStep (resStatusOf rid s)
      (resStatusOf rid (checkout u bid rid0 now period s).2) := by
  cases hb : blookup bid s.books with
  | none => rw [checkout_notFound hb]; exact allowedStep_refl _
  | some b =>
    by_cases hstat : b.status = .available
    · cases hr : rlookup rid0 s.reservations with
      | some r0 => rw [checkout_idTaken hb hstat hr]; exact allowedStep_refl _
      | none =>
        rw [checkout_success hb hstat hr]
        by_cases hrid : rid0 = rid
        · subst hrid
          have hbef : resStatusOf rid0 s = none := by
            simp [resStatusOf, hr]
          have haft : resStatusOf rid0
              (⟨bupdate bid setCheckedOut s.books,
                (⟨rid0, u, bid, .active, now, now + period⟩ : Reservation) ::
                  s.reservations⟩ : LibState) = some .active := by
            simp [resStatusOf, rlookup_cons_self]
          rw [hbef]
          dsimp only
          rw [haft]
          exact Or.inr rfl
        · have haft : resStatusOf rid
              (⟨bupdate bid setCheckedOut s.books,
                (⟨rid0, u, bid, .active, now, now + period⟩ : Reservation) ::
                  s.reservations⟩ : LibState) = resStatusOf rid s := by
            simp only [resStatusOf]
            rw [rlookup_cons_ne hrid]
          dsimp only
          rw [haft]
          exact allowedStep_refl _
    · rw [checkout_unavailable hb hstat]; exact allowedStep_refl _

theorem allowedStep_ret (rid0 : String) (s : LibState) (rid : String) :
    allowedStep (resStatusOf rid s)
      (resStatusOf rid (returnReservation rid0 s).2) := by
  cases hr : rlookup rid0 s.reservations with
  | none => rw [ret_notFound hr]; exact allowedStep_refl _
  | some r =>
    rcases status_cases r.status with ha | hc
    · rw [ret_active hr ha]
      by_cases hrid : rid = rid0
      · subst hrid
        have hbef : resStatusOf rid s = some .active := by
          simp [resStatusOf, hr, ha]
        have haft : resStatusOf rid
            (⟨bupdate r.book_id setAvailable s.books,
              rupdate rid (fun x => { x with status := .completed })
                s.reservations⟩ : LibState) = some .completed := by
          simp only [resStatusOf]
          rw [rlookup_rupdate_self rid
            (fun x => { x with status := .completed }) (fun x => rfl), hr]
          rfl
        rw [hbef]
        dsimp only
        rw [haft]
        exact Or.inr (Or.inl rfl)
      · have haft : resStatusOf rid
            (⟨bupdate r.book_id setAvailable s.books,
              rupdate rid0 (fun x => { x with status := .completed })
                s.reservations⟩ : LibState) = resStatusOf rid s := by
          simp only [resStatusOf]
          rw [rlookup_rupdate_ne rid0 rid hrid
            (fun x => { x with status := .completed }) (fun x => rfl)]
        dsimp only
        rw [haft]
        exact allowedStep_refl _
    · rw [ret_completed hr hc]; exact allowedStep_refl _

theorem allowedStep_extend (rid0 : String) (nd : Nat) (s : LibState)
    (rid : String) :
    allowedStep (resStatusOf rid s)
      (resStatusOf rid (extendDeadline rid0 nd s).2) := by
  cases hr : rlookup rid0 s.reservations with
  | none => rw [extend_notFound hr]; exact allowedStep_refl _
  | some r =>
    rcases status_cases r.status with ha | hc
    · by_cases hlt : nd < r.reservation_date
      · rw [extend_invalid hr ha hlt]; exact allowedStep_refl _
      · rw [extend_success hr ha (Nat.not_lt.mp hlt)]
        have haft : resStatusOf rid
            ({ s with reservations :=
                (rupdate rid0 (fun x => { x with return_deadline := nd })
                  s.reservations) } : LibState) = resStatusOf rid s := by
          simp only [resStatusOf]
          by_cases hrid : rid = rid0
          · subst hrid
            rw [rlookup_rupdate_self rid
              (fun x => { x with return_deadline := nd }) (fun x => rfl), hr]
            rfl
          · rw [rlookup_rupdate_ne rid0 rid hrid
              (fun x => { x with return_deadline := nd }) (fun x => rfl)]
        dsimp only
        rw [haft]
        exact allowedStep_refl _
    · rw [extend_notActive hr hc]; exact allowedStep_refl _

theorem resStatusOf_cancelOne (rid0 : String) (s : LibState) (rid : String) :
    resStatusOf rid (cancelOne rid0 s).2 = resStatusOf rid s ∨
    resStatusOf rid (cancelOne rid0 s).2 = none := by
  cases hr : rlookup rid0 s.reservations with
  | none => rw [cancelOne_notFound hr]; exact Or.inl rfl
  | some r =>
    rw [cancelOne_found hr]
    by_cases hrid : rid = rid0
    · subst hrid
      right
      simp [resStatusOf, rlookup_rremove_self]
    · left
      simp only [resStatusOf]
      rw [rlookup_rremove_ne rid0 rid hrid]

theorem resStatusOf_bulkFold (rids : List String) :
    ∀ (acc : Nat × LibState) (rid : String),
      resStatusOf rid ((rids.foldl bulkCancelStep acc)).2 =
          resStatusOf rid acc.2 ∨
      resStatusOf rid ((rids.foldl bulkCancelStep acc)).2 = none := by
  induction rids with
  | nil => intro acc rid; exact Or.inl rfl
  | cons rid0 rids ih =>
    intro acc rid
    rw [List.foldl_cons]
    rcases ih (bulkCancelStep acc rid0) rid with h | h
    · rw [h, bulkCancelStep_snd]
      exact resStatusOf_cancelOne rid0 acc.2 rid
    · exact Or.inr h

theorem allowedStep_applyOp (op : Op) (s : LibState) (rid : String) :
    allowedStep (resStatusOf rid s) (resStatusOf rid (applyOp op s)) := by
  cases op with
  | checkout u b r n p => exact allowedStep_checkout u b r n p s rid
  | ret rid0 => exact allowedStep_ret rid0 s rid
  | extend rid0 nd => exact allowedStep_extend rid0 nd s rid
  | bulkCancel rids =>
    rcases resStatusOf_bulkFold rids (0, s) rid with h | h
    · show allowedStep _ (resStatusOf rid ((rids.foldl bulkCancelStep (0, s))).2)
      rw [h]
      exact allowedStep_refl _
    · show allowedStep _ (resStatusOf rid ((rids.foldl bulkCancelStep (0, s))).2)
      rw [h]
      exact allowedStep_none_right _

theorem resStatusOf_none_cancelOne (rid0 : String) (s : LibState)
    (rid : String) (h : resStatusOf rid s = none) :
    resStatusOf rid (cancelOne rid0 s).2 = none := by
  rcases resStatusOf_cancelOne rid0 s rid with h2 | h2
  · rw [h2]; exact h
  · exact h2

theorem resStatusOf_none_step (op : Op) (s : LibState) (rid : String)
    (hnc : ¬ OpCreates rid op) (h : resStatusOf rid s = none) :
    resStatusOf rid (applyOp op s) = none := by
  cases op with
  | checkout u bid rid0 now period =>
    have hrid : rid0 ≠ rid := hnc
    show resStatusOf rid (checkout u bid rid0 now period s).2 = none
    cases hb : blookup bid s.books with
    | none => rw [checkout_notFound hb]; exact h
    | some b =>
      by_cases hstat : b.status = .available
      · cases hr : rlookup rid0 s.reservations with
        | some r0 => rw [checkout_idTaken hb hstat hr]; exact h
        | none =>
          rw [checkout_success hb hstat hr]
          simp only [resStatusOf] at h ⊢
          rw [rlookup_cons_ne hrid]
          exact h
      · rw [checkout_unavailable hb hstat]; exact h
  | ret rid0 =>
    show resStatusOf rid (returnReservation rid0 s).2 = none
    cases hr : rlookup rid0 s.reservations with
    | none => rw [ret_notFound hr]; exact h
    | some r =>
      rcases status_cases r.status with ha | hc
      · by_cases hrid : rid = rid0
        · subst hrid
          rw [resStatusOf, hr] at h
          cases h
        · rw [ret_active hr ha]
          simp only [resStatusOf] at h ⊢
          rw [rlookup_rupdate_ne rid0 rid hrid
            (fun x => { x with status := .completed }) (fun x => rfl)]
          exact h
      · rw [ret_completed hr hc]; exact h
  | extend rid0 nd =>
    show resStatusOf rid (extendDeadline rid0 nd s).2 = none
    cases hr : rlookup rid0 s.reservations with
    | none => rw [extend_notFound hr]; exact h
    | some r =>
      rcases status_cases r.status with ha | hc
      · by_cases hlt : nd < r.reservation_date
        · rw [extend_invalid hr ha hlt]; exact h
        · by_cases hrid : rid = rid0
          · subst hrid
            rw [resStatusOf, hr] at h
            cases h
          · rw [extend_success hr ha (Nat.not_lt.mp hlt)]
            simp only [resStatusOf] at h ⊢
            rw [rlookup_rupdate_ne rid0 rid hrid
              (fun x => { x with return_deadline := nd }) (fun x => rfl)]
            exact h
      · rw [extend_notActive hr hc]; exact h
  | bulkCancel rids =>
    exact bulkCancel_foldl_preserves
      (fun rid0 s h => resStatusOf_none_cancelOne rid0 s rid h)
      rids (0, s) h

theorem resStatusOf_none_ops (ops : List Op) :
    ∀ (s : LibState) (rid : String),
      (∀ op ∈ ops, ¬ OpCreates rid op) → resStatusOf rid s = none →
      resStatusOf rid (applyOps ops s) = none := by
  induction ops with
  | nil => intro s rid _ h; exact h
  | cons op ops ih =>
    intro s rid hnc h
    rw [applyOps, List.foldl_cons]
    exact ih _ rid (fun o ho => hnc o (List.mem_cons_of_mem op ho))
      (resStatusOf_none_step op s rid (hnc op (List.mem_cons_self op ops)) h)

theorem resStatusOf_completed_step (op : Op) (s : LibState) (rid : String)
    (h : resStatusOf rid s = some .completed) :
    resStatusOf rid (applyOp op s) = some .completed ∨
    resStatusOf rid (applyOp op s) = none := by
  have hstep := allowedStep_applyOp op s rid
  rw [h] at hstep
  rcases hstep with h2 | h2
  · exact Or.inl h2
  · exact Or.inr h2

theorem resStatusOf_completed_ops (ops : List Op) :
    ∀ (s : LibState) (rid : String),
      resStatusOf rid s = some .completed →
      (∀ op ∈ ops, ¬ OpCreates rid op) →
      resStatusOf rid (applyOps ops s) = some .completed ∨
      resStatusOf rid (applyOps ops s) = none := by
  induction ops with
  | nil => intro s rid h _; exact Or.inl h
  | cons op ops ih =>
    intro s rid h hnc
    rw [applyOps, List.foldl_cons]
    rcases resStatusOf_completed_step op s rid h with h2 | h2
    · exact ih _ rid h2 (fun o ho => hnc o (List.mem_cons_of_mem op ho))
    · exact Or.inr (resStatusOf_none_ops ops _ rid
        (fun o ho => hnc o (List.mem_cons_of_mem op ho)) h2)

/-- C7: the per-reservation status machine — every single Coordinator
operation takes the status of any reservation id only along the transitions
`absent → active` (creation by checkout), `active → completed` (return),
`active/completed → absent` (cancel) or leaves it in place; a reservation
that appears afresh always appears `active`; and, since ids are never reused
(I5), no sequence of operations ever takes a `completed` reservation back to
`active`. -/
theorem reservation_status_state_machine :
    (∀ (op : Op) (s : LibState) (rid : String),
       allowedStep (resStatusOf rid s) (resStatusOf rid (applyOp op s))) ∧
    (∀ (op : Op) (s : LibState) (rid : String),
       resStatusOf rid s = none → resStatusOf rid (applyOp op s) ≠ none →
       resStatusOf rid (applyOp op s) = some .active) ∧
    (∀ (ops : List Op) (s : LibState) (rid : String),
       resStatusOf rid s = some .completed →
       (∀ op ∈ ops, ¬ OpCreates rid op) →
       resStatusOf rid (applyOps ops s) ≠ some .active) := by
  refine ⟨allowedStep_applyOp, ?_, ?_⟩
  · intro op s rid h hne
    have hstep := allowedStep_applyOp op s rid
    rw [h] at hstep
    rcases hstep with h2 | h2
    · exact absurd h2 hne
    · exact h2
  · intro ops s rid h hnc
    rcases resStatusOf_completed_ops ops s rid h hnc with h2 | h2
    · rw [h2]
      intro hc
      cases hc
    · rw [h2]
      intro hc
      cases hc

/-- Witness for C7 at concrete runs: a return keeps the machine, a checkout
creates an active reservation, and extending then bulk-cancelling a completed
reservation never re-activates it. -/
theorem reservation_status_state_machine_witness :
    allowedStep
      (resStatusOf "r1"
        ⟨[⟨"A", "T", .checked_out, 1⟩],
         [⟨"r1", "u1", "A", .active, 5, 19⟩]⟩)
      (resStatusOf "r1"
        (applyOp (.ret "r1")
          ⟨[⟨"A", "T", .checked_out, 1⟩],
           [⟨"r1", "u1", "A", .active, 5, 19⟩]⟩)) ∧
    resStatusOf "r2"
        (applyOp (.checkout "u2" "B" "r2" 0 7)
          ⟨[⟨"B", "S", .available, 0⟩], []⟩) = some .active ∧
    resStatusOf "r1"
        (applyOps [.extend "r1" 99, .bulkCancel ["r1"]]
          ⟨[⟨"A", "T", .available, 2⟩],
           [⟨"r1", "u1", "A", .completed, 5, 19⟩]⟩) ≠ some .active := by
  refine ⟨reservation_status_state_machine.1 (.ret "r1") _ "r1",
    reservation_status_state_machine.2.1 (.checkout "u2" "B" "r2" 0 7)
      ⟨[⟨"B", "S", .available, 0⟩], []⟩ "r2" (by decide) (by decide),
    reservation_status_state_machine.2.2
      [.extend "r1" 99, .bulkCancel ["r1"]] _ "r1" (by decide) ?_⟩
  intro op hop
  rcases List.mem_cons.mp hop with rfl | hop2
  · simp [OpCreates]
  · rcases List.mem_singleton.mp hop2 with rfl
    simp [OpCreates]

theorem deadlinesOK_applyOp (op : Op) (s : LibState)
    (hnd : ResIdsNodup s) (h : DeadlinesOK s) :
    DeadlinesOK (applyOp op s) := by
  cases op with
  | checkout u bid rid0 now period =>
    show DeadlinesOK (checkout u bid rid0 now period s).2
    cases hb : blookup bid s.books with
    | none => rw [checkout_notFound hb]; exact h
    | some b =>
      by_cases hstat : b.status = .available
      · cases hr : rlookup rid0 s.reservations with
        | some r0 => rw [checkout_idTaken hb hstat hr]; exact h
        | none =>
          rw [checkout_success hb hstat hr]
          intro x hx
          dsimp only at hx
          rcases List.mem_cons.mp hx with rfl | hm
          · exact Nat.le_add_right now period
          · exact h x hm
      · rw [checkout_unavailable hb hstat]; exact h
  | ret rid0 =>
    show DeadlinesOK (returnReservation rid0 s).2
    cases hr : rlookup rid0 s.reservations with
    | none => rw [ret_notFound hr]; exact h
    | some r =>
      rcases status_cases r.status with ha | hc
      · rw [ret_active hr ha]
        intro x hx
        dsimp only at hx
        rcases List.mem_map.mp hx with ⟨y, hy, he⟩
        by_cases hk : y.reservation_id = rid0
        · rw [← he, if_pos hk]
          exact h y hy
        · rw [← he, if_neg hk]
          exact h y hy
      · rw [ret_completed hr hc]; exact h
  | extend rid0 nd =>
    show DeadlinesOK (extendDeadline rid0 nd s).2
    cases hr : rlookup rid0 s.reservations with
    | none => rw [extend_notFound hr]; exact h
    | some r =>
      rcases status_cases r.status with ha | hc
      · by_cases hlt : nd < r.reservation_date
        · rw [extend_invalid hr ha hlt]; exact h
        · rw [extend_success hr ha (Nat.not_lt.mp hlt)]
          intro x hx
          dsimp only at hx
          rcases List.mem_map.mp hx with ⟨y, hy, he⟩
          by_cases hk : y.reservation_id = rid0
          · have hyr : y = r := rlookup_unique hnd hr y hy hk
            rw [← he, if_pos hk, hyr]
            exact Nat.not_lt.mp hlt
          · rw [← he, if_neg hk]
            exact h y hy
      · rw [extend_notActive hr hc]; exact h
  | bulkCancel rids =>
    have hstep : ∀ (rid0 : String) (s : LibState),
        DeadlinesOK s → DeadlinesOK (cancelOne rid0 s).2 := by
      intro rid0 s hD
      cases hr : rlookup rid0 s.reservations with
      | none => rw [cancelOne_notFound hr]; exact hD
      | some r =>
        rw [cancelOne_found hr]
        intro x hx
        dsimp only at hx
        exact hD x (List.mem_of_mem_filter hx)
    exact bulkCancel_foldl_preserves hstep rids (0, s) h

/-- C8: at every observable point `return_deadline ≥ reservation_date` holds
(invariant I3 is preserved by every operation sequence from a well-formed
start), and a successful extension changes only the reservation's
`return_deadline` — the stored record differs from the old one in that field
alone, so `reservation_date` is untouched — while the inequality is
preserved because a deadline earlier than the reservation date is rejected. -/
theorem deadline_invariant_extend :
    (∀ (s : LibState) (rid : String) (nd : Nat) (r : Reservation),
       rlookup rid s.reservations = some r → r.status = .active →
       r.reservation_date ≤ nd →
       (extendDeadline rid nd s).1 = .success ∧
       rlookup rid (extendDeadline rid nd s).2.reservations =
         some { r with return_deadline := nd } ∧
       (extendDeadline rid nd s).2.books = s.books) ∧
    (∀ (ops : List Op) (s : LibState),
       ResIdsNodup s → DeadlinesOK s → DeadlinesOK (applyOps ops s)) := by
  constructor
  · intro s rid nd r h ha hge
    rw [extend_success h ha hge]
    refine ⟨rfl, ?_, rfl⟩
    dsimp only
    rw [rlookup_rupdate_self rid
      (fun x => { x with return_deadline := nd }) (fun x => rfl), h]
    rfl
  · intro ops s hnd h
    have hstep : ∀ (op : Op) (s : LibState),
        ResIdsNodup s ∧ DeadlinesOK s →
        ResIdsNodup (applyOp op s) ∧ DeadlinesOK (applyOp op s) :=
      fun op s hh =>
        ⟨resIdsNodup_applyOp op s hh.1, deadlinesOK_applyOp op s hh.1 hh.2⟩
    exact (applyOps_preserves hstep ops s ⟨hnd, h⟩).2

/-- Witness for C8 at a concrete extension and a concrete operation
sequence. -/
theorem deadline_invariant_extend_witness :
    ((extendDeadline "r1" 25
        ⟨[⟨"A", "T", .checked_out, 1⟩],
         [⟨"r1", "u1", "A", .active, 5, 19⟩]⟩).1 = .success ∧
     rlookup "r1" (extendDeadline "r1" 25
        ⟨[⟨"A", "T", .checked_out, 1⟩],
         [⟨"r1", "u1", "A", .active, 5, 19⟩]⟩).2.reservations =
       some ⟨"r1", "u1", "A", .active, 5, 25⟩ ∧
     (extendDeadline "r1" 25
        ⟨[⟨"A", "T", .checked_out, 1⟩],
         [⟨"r1", "u1", "A", .active, 5, 19⟩]⟩).2.books =
       [⟨"A", "T", .checked_out, 1⟩]) ∧
    DeadlinesOK (applyOps [.extend "r1" 25, .ret "r1"]
      ⟨[⟨"A", "T", .checked_out, 1⟩],
       [⟨"r1", "u1", "A", .active, 5, 19⟩]⟩) := by
  constructor
  · exact deadline_invariant_extend.1
      ⟨[⟨"A", "T", .checked_out, 1⟩], [⟨"r1", "u1", "A", .active, 5, 19⟩]⟩
      "r1" 25 ⟨"r1", "u1", "A", .active, 5, 19⟩ (by decide) rfl (by decide)
  · exact deadline_invariant_extend.2 [.extend "r1" 25, .ret "r1"]
      ⟨[⟨"A", "T", .checked_out, 1⟩], [⟨"r1", "u1", "A", .active, 5, 19⟩]⟩
      (by unfold ResIdsNodup; decide) (by unfold DeadlinesOK; decide)

theorem bulkCancel_count_aux (rids : List String) :
    ∀ (acc : Nat) (s : LibState), rids.Nodup →
      ((rids.foldl bulkCancelStep (acc, s))).1 =
        acc + (rids.filter
          (fun rid => (rlookup rid s.reservations).isSome)).length := by
  induction rids with
  | nil => intro acc s _; simp
  | cons rid rids ih =>
    intro acc s hnd
    rw [List.nodup_cons] at hnd
    rw [List.foldl_cons]
    cases hr : rlookup rid s.reservations with
    | none =>
      have hstep : bulkCancelStep (acc, s) rid = (acc, s) := by
        simp [bulkCancelStep, cancelOne_notFound hr]
      rw [hstep, ih acc s hnd.2, List.filter_cons]
      simp [hr]
    | some r =>
      have hstep : bulkCancelStep (acc, s) rid =
          (acc + 1, (cancelOne rid s).2) := by
        simp [bulkCancelStep, cancelOne_found hr]
      rw [hstep, ih (acc + 1) _ hnd.2]
      have hsame : (rids.filter (fun rid2 =>
            (rlookup rid2 ((cancelOne rid s).2).reservations).isSome)) =
          rids.filter (fun rid2 => (rlookup rid2 s.reservations).isSome) := by
        apply List.filter_congr
        intro rid2 hrid2
        have hne : rid2 ≠ rid := fun hc => hnd.1 (hc ▸ hrid2)
        rw [cancelOne_found hr]
        dsimp only
        rw [rlookup_rremove_ne rid rid2 hne]
      rw [hsame, List.filter_cons]
      simp only [hr, Option.isSome_some, if_true, List.length_cons]
      omega

/-- C5: `bulkCancel` reports `total_requested` equal to the number of
requested ids and `cancelled_count` equal to the number of requested
reservations actually found (absent ids are silently skipped, never an
error); cancelling an active reservation makes its book available while
cancelling a completed one leaves its book untouched — exercised on the
spec's example `{r1 active/bookA, r2 completed/bookB, r3 missing}` where the
response is `cancelled_count = 2, total_requested = 3`, book A becomes
available and book B's status is unchanged. -/
theorem bulkCancel_counts_and_books :
    (∀ (rids : List String) (s : LibState),
       (bulkCancel rids s).1.2 = rids.length) ∧
    (∀ (rids : List String) (s : LibState), rids.Nodup →
       (bulkCancel rids s).1.1 =
         (rids.filter
           (fun rid => (rlookup rid s.reservations).isSome)).length) ∧
    bulkCancel ["r1", "r2", "r3"]
        ⟨[⟨"A", "Book A", .checked_out, 1⟩, ⟨"B", "Book B", .checked_out, 1⟩],
         [⟨"r1", "u1", "A", .active, 5, 19⟩,
          ⟨"r2", "u2", "B", .completed, 3, 17⟩,
          ⟨"r4", "u3", "B", .active, 4, 18⟩]⟩ =
      ((2, 3),
       ⟨[⟨"A", "Book A", .available, 2⟩, ⟨"B", "Book B", .checked_out, 1⟩],
        [⟨"r4", "u3", "B", .active, 4, 18⟩]⟩) := by
  refine ⟨fun rids s => rfl, ?_, by decide⟩
  intro rids s hnd
  have := bulkCancel_count_aux rids 0 s hnd
  rw [Nat.zero_add] at this
  exact this

/-- Witness for C5 at a concrete two-id request, one id present and one
missing. -/
theorem bulkCancel_counts_and_books_witness :
    (bulkCancel ["r1", "r9"]
      ⟨[], [⟨"r1", "u1", "A", .active, 5, 19⟩]⟩).1.2 = 2 ∧
    (bulkCancel ["r1", "r9"]
      ⟨[], [⟨"r1", "u1", "A", .active, 5, 19⟩]⟩).1.1 =
      (["r1", "r9"].filter (fun rid =>
        (rlookup rid [⟨"r1", "u1", "A", .active, 5, 19⟩]).isSome)).length :=
  ⟨bulkCancel_counts_and_books.1 ["r1", "r9"]
    ⟨[], [⟨"r1", "u1", "A", .active, 5, 19⟩]⟩,
   bulkCancel_counts_and_books.2.1 ["r1", "r9"]
    ⟨[], [⟨"r1", "u1", "A", .active, 5, 19⟩]⟩ (by decide)⟩

end Core

namespace Frontend

theorem lexCmp_vals (as bs : List Char) :
    lexCmp as bs = -1 ∨ lexCmp as bs = 0 ∨ lexCmp as bs = 1 := by
  induction as generalizing bs with
  | nil =>
    cases bs with
    | nil => exact Or.inr (Or.inl rfl)
    | cons b bs => exact Or.inl rfl
  | cons a as ih =>
    cases bs with
    | nil => exact Or.inr (Or.inr rfl)
    | cons b bs =>
      rcases Nat.lt_trichotomy a.toNat b.toNat with hab | hab | hab
      · left
        simp [lexCmp, hab]
      · have h1 : ¬ a.toNat < b.toNat := by omega
        have h2 : ¬ b.toNat < a.toNat := by omega
        simpa [lexCmp, h1, h2] using ih bs
      · right; right
        have h1 : ¬ a.toNat < b.toNat := by omega
        simp [lexCmp, h1, hab]

theorem lexCmp_swap (as bs : List Char) : lexCmp bs as = -(lexCmp as bs) := by
  induction as generalizing bs with
  | nil =>
    cases bs with
    | nil => rfl
    | cons b bs => rfl
  | cons a as ih =>
    cases bs with
    | nil => rfl
    | cons b bs =>
      rcases Nat.lt_trichotomy a.toNat b.toNat with hab | hab | hab
      · have h2 : ¬ b.toNat < a.toNat := by omega
        simp [lexCmp, hab, h2]
      · have h1 : ¬ a.toNat < b.toNat := by omega
        have h2 : ¬ b.toNat < a.toNat := by omega
        simpa [lexCmp, h1, h2] using ih bs
      · have h1 : ¬ a.toNat < b.toNat := by omega
        simp [lexCmp, h1, hab]

theorem lexCmp_le_trans (as : List Char) :
    ∀ (bs cs : List Char), lexCmp as bs ≤ 0 → lexCmp bs cs ≤ 0 →
      lexCmp as cs ≤ 0 := by
  induction as with
  | nil =>
    intro bs cs _ _
    cases cs with
    | nil => simp [lexCmp]
    | cons c cs => simp [lexCmp]
  | cons a as ih =>
    intro bs cs h1 h2
    cases bs with
    | nil => simp [lexCmp] at h1
    | cons b bs =>
      cases cs with
      | nil => simp [lexCmp] at h2
      | cons c cs =>
        rcases Nat.lt_trichotomy a.toNat b.toNat with hab | hab | hab
        · rcases Nat.lt_trichotomy b.toNat c.toNat with hbc | hbc | hbc
          · have hac : a.toNat < c.toNat := by omega
            simp [lexCmp, hac]
          · have hac : a.toNat < c.toNat := by omega
            simp [lexCmp, hac]
          · have hb1 : ¬ b.toNat < c.toNat := by omega
            simp [lexCmp, hb1, hbc] at h2
        · have ha1 : ¬ a.toNat < b.toNat := by omega
          have ha2 : ¬ b.toNat < a.toNat := by omega
          simp only [lexCmp, if_neg ha1, if_neg ha2] at h1
          rcases Nat.lt_trichotomy b.toNat c.toNat with hbc | hbc | hbc
          · have hac : a.toNat < c.toNat := by omega
            simp [lexCmp, hac]
          · have hc1 : ¬ b.toNat < c.toNat := by omega
            have hc2 : ¬ c.toNat < b.toNat := by omega
            simp only [lexCmp, if_neg hc1, if_neg hc2] at h2
            have hd1 : ¬ a.toNat < c.toNat := by omega
            have hd2 : ¬ c.toNat < a.toNat := by omega
            simp only [lexCmp, if_neg hd1, if_neg hd2]
            exact ih bs cs h1 h2
          · have hc1 : ¬ b.toNat < c.toNat := by omega
            simp [lexCmp, hc1, hbc] at h2
        · have ha1 : ¬ a.toNat < b.toNat := by omega
          simp [lexCmp, ha1, hab] at h1

theorem localeCompare_le_trans {a b c : String}
    (h1 : localeCompare a b ≤ 0) (h2 : localeCompare b c ≤ 0) :
    localeCompare a c ≤ 0 :=
  lexCmp_le_trans a.data b.data c.data h1 h2

theorem localeCompare_le_total (a b : String) :
    localeCompare a b ≤ 0 ∨ localeCompare b a ≤ 0 := by
  rcases lexCmp_vals a.data b.data with h | h | h
  · left; rw [localeCompare, h]; decide
  · left; rw [localeCompare, h]
  · right
    rw [localeCompare, lexCmp_swap a.data b.data, h]
    decide

theorem resLE_iff {a b : Reservation} :
    resLE a b = true ↔ reservationCompare a b ≤ 0 := by
  simp [resLE]

theorem reservationCompare_active_inactive {a b : Reservation}
    (ha : a.status = .active) (hb : b.status ≠ .active) :
    reservationCompare a b = -1 := by
  simp [reservationCompare, ha, hb]

theorem reservationCompare_inactive_active {a b : Reservation}
    (ha : a.status ≠ .active) (hb : b.status = .active) :
    reservationCompare a b = 1 := by
  simp [reservationCompare, ha, hb]

theorem reservationCompare_same {a b : Reservation}
    (h : (a.status = .active) ↔ (b.status = .active)) :
    reservationCompare a b =
      localeCompare a.reservation_date b.reservation_date := by
  by_cases ha : a.status = .active
  · have hb := h.mp ha
    simp [reservationCompare, ha, hb]
  · have hb : ¬ b.status = .active := fun hc => ha (h.mpr hc)
    simp [reservationCompare, ha, hb]

theorem resLE_total (a b : Reservation) :
    (resLE a b || resLE b a) = true := by
  rw [Bool.or_eq_true, resLE_iff, resLE_iff]
  by_cases ha : a.status = .active
  · by_cases hb : b.status = .active
    · rw [reservationCompare_same (by rw [ha, hb]),
        reservationCompare_same (by rw [ha, hb])]
      exact localeCompare_le_total _ _
    · left
      rw [reservationCompare_active_inactive ha hb]
      decide
  · by_cases hb : b.status = .active
    · right
      rw [reservationCompare_active_inactive hb ha]
      decide
    · rw [reservationCompare_same (by constructor <;> (intro h; exact absurd h (by assumption))),
        reservationCompare_same (by constructor <;> (intro h; exact absurd h (by assumption)))]
      exact localeCompare_le_total _ _

theorem resLE_trans (a b c : Reservation) (h1 : resLE a b = true)
    (h2 : resLE b c = true) : resLE a c = true := by
  rw [resLE_iff] at h1 h2 ⊢
  by_cases ha : a.status = .active
  · by_cases hc : c.status = .active
    · rw [reservationCompare_same (by rw [ha, hc])]
      by_cases hb : b.status = .active
      · rw [reservationCompare_same (by rw [ha, hb])] at h1
        rw [reservationCompare_same (by rw [hb, hc])] at h2
        exact localeCompare_le_trans h1 h2
      · rw [reservationCompare_inactive_active hb hc] at h2
        omega
    · rw [reservationCompare_active_inactive ha hc]
      decide
  · by_cases hc : c.status = .active
    · by_cases hb : b.status = .active
      · rw [reservationCompare_inactive_active ha hb] at h1
        omega
      · rw [reservationCompare_inactive_active hb hc] at h2
        omega
    · rw [reservationCompare_same (by constructor <;> (intro h; exact absurd h (by assumption)))]
      by_cases hb : b.status = .active
      · rw [reservationCompare_inactive_active ha hb] at h1
        omega
      · rw [reservationCompare_same (by constructor <;> (intro h; exact absurd h (by assumption)))] at h1
        rw [reservationCompare_same (by constructor <;> (intro h; exact absurd h (by assumption)))] at h2
        exact localeCompare_le_trans h1 h2

/-- C9: the reservation-list sort used by the user and book detail views
returns a permutation of its input (the input itself is copied, not
mutated), in which every `active` reservation precedes every non-active one,
and reservations of equal activity appear in non-decreasing lexicographic
order of their `reservation_date` strings. -/
theorem sortedReservations_perm_ordered :
    ∀ (l : List Reservation),
      (sortedReservations l).Perm l ∧
      List.Pairwise (fun a b =>
        (b.status = .active → a.status = .active) ∧
        ((a.status = .active ↔ b.status = .active) →
          localeCompare a.reservation_date b.reservation_date ≤ 0))
        (sortedReservations l) := by
  intro l
  refine ⟨List.mergeSort_perm l resLE, ?_⟩
  have hs := List.sorted_mergeSort
    (fun a b c h1 h2 => resLE_trans a b c h1 h2) resLE_total l
  refine hs.imp ?_
  intro a b hab
  rw [resLE_iff] at hab
  constructor
  · intro hb
    by_contra ha
    rw [reservationCompare_inactive_active ha hb] at hab
    omega
  · intro hiff
    rw [reservationCompare_same hiff] at hab
    exact hab

/-- Witness for C9 at a concrete three-element list. -/
theorem sortedReservations_perm_ordered_witness :
    (sortedReservations
      [⟨"r1", "u", "b", "U", "B", .completed, "2024-03-01", "d", "c", "u"⟩,
       ⟨"r2", "u", "b", "U", "B", .active, "2024-05-01", "d", "c", "u"⟩,
       ⟨"r3", "u", "b", "U", "B", .active, "2024-01-01", "d", "c", "u"⟩]).Perm
      [⟨"r1", "u", "b", "U", "B", .completed, "2024-03-01", "d", "c", "u"⟩,
       ⟨"r2", "u", "b", "U", "B", .active, "2024-05-01", "d", "c", "u"⟩,
       ⟨"r3", "u", "b", "U", "B", .active, "2024-01-01", "d", "c", "u"⟩] ∧
    List.Pairwise (fun a b =>
      (b.status = .active → a.status = .active) ∧
      ((a.status = .active ↔ b.status = .active) →
        localeCompare a.reservation_date b.reservation_date ≤ 0))
      (sortedReservations
        [⟨"r1", "u", "b", "U", "B", .completed, "2024-03-01", "d", "c", "u"⟩,
         ⟨"r2", "u", "b", "U", "B", .active, "2024-05-01", "d", "c", "u"⟩,
         ⟨"r3", "u", "b", "U", "B", .active, "2024-01-01", "d", "c", "u"⟩]) :=
  sortedReservations_perm_ordered
    [⟨"r1", "u", "b", "U", "B", .completed, "2024-03-01", "d", "c", "u"⟩,
     ⟨"r2", "u", "b", "U", "B", .active, "2024-05-01", "d", "c", "u"⟩,
     ⟨"r3", "u", "b", "U", "B", .active, "2024-01-01", "d", "c", "u"⟩]

end Frontend

end DistLib

namespace DistLib

namespace Core

theorem ckStep_length (s : CkSys) (i : Nat) :
    (ckStep s i).attempts.length = s.attempts.length := by
  unfold ckStep
  cases hi : s.attempts[i]? with
  | none => rfl
  | some a =>
    cases a with
    | pending =>
      by_cases hst : s.book.status = .available <;>
        simp [hst, List.length_set]
    | readDone v =>
      by_cases hv : s.book.version = v <;> simp [hv, List.length_set]
    | done b => rfl

theorem ckRun_length (sched : List Nat) :
    ∀ (s : CkSys), (ckRun sched s).attempts.length = s.attempts.length := by
  induction sched with
  | nil => intro s; rfl
  | cons i sched ih =>
    intro s
    rw [ckRun, List.foldl_cons]
    rw [show List.foldl ckStep (ckStep s i) sched = ckRun sched (ckStep s i)
      from rfl]
    rw [ih (ckStep s i), ckStep_length]

theorem ckInv_init (n v0 : Nat) : CkInv v0 (ckInit n v0) := by
  constructor
  · intro a ha v hv
    rw [List.eq_of_mem_replicate ha] at hv
    cases hv
  · left
    refine ⟨rfl, ?_⟩
    intro a ha
    rw [List.eq_of_mem_replicate ha]
    rfl

theorem succCount_zero_of_undone {s : CkSys}
    (hnd : ∀ a ∈ s.attempts, isDone a = false) : succCount s = 0 := by
  rw [succCount, List.countP_eq_zero]
  intro a ha hs
  have hd : isDone a = true := by
    cases a with
    | pending => cases hs
    | readDone v => cases hs
    | done b => rfl
  rw [hnd a ha] at hd
  cases hd

theorem ckInv_step (v0 : Nat) (s : CkSys) (i : Nat) (h : CkInv v0 s) :
    CkInv v0 (ckStep s i) := by
  obtain ⟨hrd, hph⟩ := h
  unfold ckStep
  cases hi : s.attempts[i]? with
  | none => exact ⟨hrd, hph⟩
  | some a =>
    obtain ⟨hlt, hget⟩ := List.getElem?_eq_some_iff.mp hi
    have hmem : a ∈ s.attempts := hget ▸ List.getElem_mem hlt
    cases a with
    | pending =>
      by_cases hst : s.book.status = .available
      · rw [if_pos hst]
        rcases hph with ⟨hb, hnd⟩ | ⟨hb, _⟩
        · have hver : s.book.version = v0 := by rw [hb]
          constructor
          · intro a2 ha2 v hv
            rcases List.mem_or_eq_of_mem_set ha2 with hold | hnew
            · exact hrd a2 hold v hv
            · rw [hnew] at hv
              cases hv
              exact hver
          · left
            refine ⟨hb, ?_⟩
            intro a2 ha2
            rcases List.mem_or_eq_of_mem_set ha2 with hold | hnew
            · exact hnd a2 hold
            · rw [hnew]
              rfl
        · rw [hb] at hst
          cases hst
      · rw [if_neg hst]
        rcases hph with ⟨hb, _⟩ | ⟨hb, hsc⟩
        · rw [hb] at hst
          exact absurd rfl hst
        · constructor
          · intro a2 ha2 v hv
            rcases List.mem_or_eq_of_mem_set ha2 with hold | hnew
            · exact hrd a2 hold v hv
            · rw [hnew] at hv
              cases hv
          · right
            refine ⟨hb, ?_⟩
            have hs1 := hsc
            rw [succCount] at hs1
            rw [succCount, List.countP_set isSucc s.attempts i _ hlt, hget]
            have hif1 : (if isSucc .pending = true then 1 else 0) = 0 := rfl
            have hif2 :
                (if isSucc (.done false) = true then 1 else 0) = 0 := rfl
            rw [hif1, hif2, hs1]
    | readDone v =>
      have hv0 : v = v0 := hrd _ hmem v rfl
      dsimp only
      by_cases hv : s.book.version = v
      · rw [if_pos hv]
        rcases hph with ⟨hb, hnd⟩ | ⟨hb, hsc⟩
        · constructor
          · intro a2 ha2 w hw
            rcases List.mem_or_eq_of_mem_set ha2 with hold | hnew
            · exact hrd a2 hold w hw
            · rw [hnew] at hw
              cases hw
          · right
            have hver : s.book.version = v0 := by rw [hb]
            constructor
            · rw [hver]
            · have hz := succCount_zero_of_undone hnd
              rw [succCount] at hz
              rw [succCount, List.countP_set isSucc s.attempts i _ hlt, hget]
              have hif1 :
                  (if isSucc (.readDone v) = true then 1 else 0) = 0 := rfl
              have hif2 :
                  (if isSucc (.done true) = true then 1 else 0) = 1 := rfl
              rw [hif1, hif2, hz]
        · have hver : s.book.version = v0 + 1 := by rw [hb]
          rw [hv0] at hv
          omega
      · rw [if_neg hv]
        rcases hph with ⟨hb, hnd⟩ | ⟨hb, hsc⟩
        · have hver : s.book.version = v0 := by rw [hb]
          rw [hv0] at hv
          exact absurd hver hv
        · constructor
          · intro a2 ha2 w hw
            rcases List.mem_or_eq_of_mem_set ha2 with hold | hnew
            · exact hrd a2 hold w hw
            · rw [hnew] at hw
              cases hw
          · right
            refine ⟨hb, ?_⟩
            have hs1 := hsc
            rw [succCount] at hs1
            rw [succCount, List.countP_set isSucc s.attempts i _ hlt, hget]
            have hif1 :
                (if isSucc (.readDone v) = true then 1 else 0) = 0 := rfl
            have hif2 :
                (if isSucc (.done false) = true then 1 else 0) = 0 := rfl
            rw [hif1, hif2, hs1]
    | done b => exact ⟨hrd, hph⟩

theorem ckInv_run (v0 : Nat) (sched : List Nat) :
    ∀ (s : CkSys), CkInv v0 s → CkInv v0 (ckRun sched s) := by
  induction sched with
  | nil => intro s h; exact h
  | cons i sched ih =>
    intro s h
    rw [ckRun, List.foldl_cons]
    exact ih (ckStep s i) (ckInv_step v0 s i h)

/-- C1: for every number `n ≥ 1` of concurrent checkout attempts on the same
initially-available book and every interleaving of their read and CAS
micro-steps that runs all attempts to completion, exactly one attempt wins
(and goes on to receive the new active reservation) while the other `n − 1`
fail with `Unavailable`. -/
theorem concurrent_checkout_one_winner :
    ∀ (n v0 : Nat) (sched : List Nat), 1 ≤ n →
      Quiescent (ckRun sched (ckInit n v0)) →
      succCount (ckRun sched (ckInit n v0)) = 1 ∧
      failCount (ckRun sched (ckInit n v0)) = n - 1 := by
  intro n v0 sched hn hq
  have hinv := ckInv_run v0 sched (ckInit n v0) (ckInv_init n v0)
  have hlen : (ckRun sched (ckInit n v0)).attempts.length = n := by
    rw [ckRun_length]
    exact List.length_replicate n _
  rcases hinv.2 with ⟨hb, hnd⟩ | ⟨hb, hsc⟩
  · exfalso
    have hpos : 0 < (ckRun sched (ckInit n v0)).attempts.length := by omega
    rcases List.exists_mem_of_length_pos hpos with ⟨a, ha⟩
    have h1 := hq a ha
    rw [hnd a ha] at h1
    cases h1
  · refine ⟨hsc, ?_⟩
    have hsplit := List.length_eq_countP_add_countP isSucc
      (ckRun sched (ckInit n v0)).attempts
    have hco : (ckRun sched (ckInit n v0)).attempts.countP
        (fun a => decide (¬ isSucc a = true)) =
        (ckRun sched (ckInit n v0)).attempts.countP isFail := by
      apply List.countP_congr
      intro a ha
      have hd := hq a ha
      cases a with
      | pending => cases hd
      | readDone v => cases hd
      | done b =>
        cases b with
        | true => simp [isSucc, isFail]
        | false => simp [isSucc, isFail]
    rw [failCount, ← hco]
    rw [succCount] at hsc
    omega

/-- Witness for C1: three attempts racing under a concrete interleaving in
which all three read before anyone attempts the CAS. -/
theorem concurrent_checkout_one_winner_witness :
    1 ≤ 3 ∧ Quiescent (ckRun [0, 1, 2, 0, 1, 2] (ckInit 3 0)) ∧
    succCount (ckRun [0, 1, 2, 0, 1, 2] (ckInit 3 0)) = 1 ∧
    failCount (ckRun [0, 1, 2, 0, 1, 2] (ckInit 3 0)) = 3 - 1 := by
  have hq : Quiescent (ckRun [0, 1, 2, 0, 1, 2] (ckInit 3 0)) := by
    unfold Quiescent
    decide
  exact ⟨by decide, hq,
    concurrent_checkout_one_winner 3 0 [0, 1, 2, 0, 1, 2] (by decide) hq⟩

end Core

end DistLib
